import Mathlib

/-
A shallow embedding of the weavlet fact-sheet engine: the deterministic
conflict-resolution merge engine, the extras sanitizer, the in-memory storage
adapter with optimistic concurrency, and the orchestrator (patch / observe
pipeline, idempotency cache, CAS retry loop).

Modelling conventions:
  * JS `undefined` is `Option.none`; JSON values are the inductive `Value`
    (JS numbers are modelled as rationals, so non-finite numbers have no
    representation and the finiteness filter in the sanitizer is vacuous).
  * JS objects / Maps are insertion-ordered association lists; property
    assignment updates an existing key in place, else appends.
  * `localeCompare` / string ordering is modelled as lexicographic order on
    the character data.
  * The zod schema is an external collaborator: a per-field record of an
    enum-normalization function, a `safeParse` function and a nullability
    flag, exactly the three capabilities the orchestrator uses.
-/

namespace Weavlet

/-- JSON-shaped runtime values. -/
inductive Value where
  | vNull
  | vStr (s : String)
  | vNum (q : ℚ)
  | vBool (b : Bool)
  | vArr (xs : List Value)
  | vObj (fields : List (String × Value))

/-- Tests for the JS `=== null` check. -/
def Value.isNull : Value → Bool
  | .vNull => true
  | _ => false

/-- Tests for `typeof v === "object" && v !== null && !Array.isArray(v)`. -/
def Value.isPlainObj : Value → Bool
  | .vObj _ => true
  | _ => false

/-- Association-list lookup: first binding wins (JS object property read). -/
def aget {α : Type} : List (String × α) → String → Option α
  | [], _ => none
  | (k, v) :: rest, key => if k = key then some v else aget rest key

/-- Association-list write: JS property assignment — update the existing
binding in place, keeping its position, else append. -/
def aset {α : Type} : List (String × α) → String → α → List (String × α)
  | [], key, v => [(key, v)]
  | (k, w) :: rest, key, v =>
      if k = key then (key, v) :: rest else (k, w) :: aset rest key v

/-- Association-list removal (JS `Map.delete`). -/
def adelete {α : Type} : List (String × α) → String → List (String × α)
  | [], _ => []
  | (k, w) :: rest, key => if k = key then rest else (k, w) :: adelete rest key

/-- String truncation by character count, `s.slice(0, n)`. -/
def strTake (s : String) (n : Nat) : String := ⟨s.data.take n⟩

/-- Boolean lexicographic strict order on character data, the model of
string comparison (`localeCompare` sign / `<`). -/
def strLtb : List Char → List Char → Bool
  | [], [] => false
  | [], _ :: _ => true
  | _ :: _, [] => false
  | a :: as, b :: bs =>
      if a.toNat < b.toNat then true
      else if b.toNat < a.toNat then false
      else strLtb as bs

/-- Numeric result of `a.localeCompare(b)` as used by the batch comparator. -/
def localeCmp (a b : String) : Int :=
  if strLtb a.data b.data then -1 else if strLtb b.data a.data then 1 else 0

/-- Provenance record attached to every present profile field. -/
structure Provenance where
  value : Value
  source : String
  timestamp : Int
  confidence : ℚ
  inferred : Bool

/-- A candidate as it reaches the merge engine (`ExtractorCandidate & {source}`):
`value = none` models an undefined value, `timestamp = none` a missing
timestamp that resolves to the merge-time clock. -/
structure Candidate where
  field : String
  value : Option Value
  confidence : ℚ
  inferred : Bool
  source : String
  timestamp : Option Int

/-- A raw extractor candidate before `validateCandidates` fills defaults. -/
structure ExtractorCandidateL where
  field : String
  value : Option Value
  confidence : Option ℚ
  inferred : Bool
  source : Option String
  timestamp : Option Int

/-- The extras sanitizer policy; `none` fields fall back to the defaults via
`??` exactly as the source resolves them. The key pattern is an abstract
string predicate (the source holds a RegExp). -/
structure ExtrasPolicy where
  keyPattern : Option (String → Bool) := none
  maxKeyLength : Option Nat := none
  maxStringLength : Option Nat := none
  allowArrays : Option Bool := none
  allowNestedObjects : Option Bool := none
  maxNestingDepth : Option Nat := none
  maxArrayLength : Option Nat := none

/-- Conflict-resolution policy. -/
structure ConflictPolicy where
  sourcePriority : List (String × Int)
  minConfidence : ℚ
  recencyWindowMs : Int
  maxFieldLength : Nat
  extrasMaxKeys : Nat
  extrasPolicy : Option ExtrasPolicy := none

/-- Default policy of the FactSheet constructor. -/
def DEFAULT_POLICY : ConflictPolicy :=
  { sourcePriority := [("crm", 3), ("manual", 2), ("observe", 1), ("inferred", 0)]
    minConfidence := mkRat 35 100
    recencyWindowMs := 24 * 60 * 60 * 1000
    maxFieldLength := 1024
    extrasMaxKeys := 32
    extrasPolicy := none }

/-- Effective source priority, `policy.sourcePriority[source] ?? 0`. -/
def priorityOf (policy : ConflictPolicy) (source : String) : Int :=
  (aget policy.sourcePriority source).getD 0

/-- Merge / history action. -/
inductive MergeAction where
  | set
  | delete
  | rejected
deriving DecidableEq

/-- Stable rejection reason codes. -/
inductive Reason where
  | schema_invalid
  | unknown_field
  | low_confidence
  | lower_priority
  | outside_recency
  | older_timestamp
  | not_nullable
  | extras_invalid
deriving DecidableEq

/-- Append-only journal record. -/
structure HistoryEntry where
  field : String
  value : Option Value
  previousValue : Option Value
  source : String
  timestamp : Int
  confidence : ℚ
  inferred : Bool
  action : MergeAction
  reason : Option Reason := none

/-- A rejected candidate as reported in results. -/
structure RejectedField where
  field : String
  value : Option Value
  reason : Reason

/-- Input of `mergeCandidates`. -/
structure MergeInput where
  profile : List (String × Value)
  provenance : List (String × Provenance)
  candidates : List Candidate
  policy : ConflictPolicy
  allowNull : String → Bool
  skipRecencyCheck : Bool

/-- Output of `mergeCandidates`. -/
structure MergeResult where
  profile : List (String × Value)
  provenance : List (String × Provenance)
  updated : List (String × Value)
  rejected : List RejectedField
  history : List HistoryEntry

/-- Candidate timestamp resolution, `candidate.timestamp ?? nowTs`. -/
def resolvedTimestamp (nowTs : Int) (c : Candidate) : Int := c.timestamp.getD nowTs

/-- String values longer than `maxLength` are cut to `maxLength`; everything
else passes through (`truncateValue`). -/
def truncateValue (v : Value) (maxLength : Nat) : Value :=
  match v with
  | .vStr s => if s.length > maxLength then .vStr (strTake s maxLength) else .vStr s
  | v => v

/-- Intermediate state of the merge fold. -/
structure MergeState where
  profile : List (String × Value)
  provenance : List (String × Provenance)
  updated : List (String × Value)
  rejected : List RejectedField
  history : List HistoryEntry

/-- Records a rejection: pushes the rejected entry and the audit history row
(`action = rejected`), leaving profile and provenance untouched. -/
def rejectCand (st : MergeState) (c : Candidate) (ts : Int) (r : Reason) : MergeState :=
  { st with
    rejected := st.rejected ++ [⟨c.field, c.value, r⟩]
    history := st.history ++
      [{ field := c.field, value := c.value,
         previousValue := aget st.profile c.field, source := c.source, timestamp := ts,
         confidence := c.confidence, inferred := c.inferred,
         action := .rejected, reason := some r }] }

/-- The per-candidate decision of the merge loop, in the source's order:
undefined value, low confidence, stale lower-equal-priority (recency window),
same-priority-older-timestamp, lower priority, null into non-nullable, accept. -/
def mergeStep (policy : ConflictPolicy) (anull : String → Bool) (skipRecencyCheck : Bool)
    (nowTs : Int) (st : MergeState) (c : Candidate) : MergeState :=
  let candidatePriority := priorityOf policy c.source
  let existingProv := aget st.provenance c.field
  match c.value with
  | none => rejectCand st c nowTs .schema_invalid
  | some v =>
    if c.confidence < policy.minConfidence then
      rejectCand st c nowTs .low_confidence
    else
      let candidateTimestamp := resolvedTimestamp nowTs c
      let isStale : Bool :=
        !skipRecencyCheck &&
        (match existingProv with
         | some ex =>
             decide (candidatePriority ≤ priorityOf policy ex.source) &&
             decide (candidateTimestamp ≤ ex.timestamp) &&
             decide (ex.timestamp - candidateTimestamp ≥ policy.recencyWindowMs)
         | none => false)
      if isStale then
        rejectCand st c candidateTimestamp .outside_recency
      else
        let isOlderSamePrio : Bool :=
          match existingProv with
          | some ex =>
              decide (candidatePriority = priorityOf policy ex.source) &&
              decide (candidateTimestamp < ex.timestamp)
          | none => false
        if isOlderSamePrio then
          rejectCand st c nowTs .older_timestamp
        else
          let isLowerPrio : Bool :=
            match existingProv with
            | some ex => decide (candidatePriority < priorityOf policy ex.source)
            | none => false
          if isLowerPrio then
            rejectCand st c nowTs .lower_priority
          else if v.isNull && !anull c.field then
            rejectCand st c nowTs .not_nullable
          else
            let nextValue := truncateValue v policy.maxFieldLength
            let previousValue := aget st.profile c.field
            { st with
              profile := aset st.profile c.field nextValue
              provenance := aset st.provenance c.field
                ⟨nextValue, c.source, candidateTimestamp, c.confidence, c.inferred⟩
              updated := aset st.updated c.field nextValue
              history := st.history ++
                [{ field := c.field, value := some nextValue,
                   previousValue := previousValue, source := c.source,
                   timestamp := candidateTimestamp, confidence := c.confidence,
                   inferred := c.inferred,
                   action := if v.isNull then .delete else .set, reason := none }] }

/-- The batch comparator passed to `sort`: descending priority, descending
timestamp, descending confidence, then `localeCompare` on the field names.
Mixed integer and rational differences are collected in ℚ since all JS
numbers share one type; only the sign is ever used. -/
def mergeCmp (policy : ConflictPolicy) (nowTs : Int) (a b : Candidate) : ℚ :=
  let prioDiff : Int := priorityOf policy b.source - priorityOf policy a.source
  if prioDiff ≠ 0 then (prioDiff : ℚ)
  else
    let tsDiff : Int := resolvedTimestamp nowTs b - resolvedTimestamp nowTs a
    if tsDiff ≠ 0 then (tsDiff : ℚ)
    else
      let confDiff : ℚ := b.confidence - a.confidence
      if confDiff ≠ 0 then confDiff
      else (localeCmp a.field b.field : ℚ)

/-- JS `Array.prototype.sort` is a stable sort driven by the comparator; it is
modelled as stable insertion sort on the relation `cmp a b ≤ 0`. -/
def sortCandidates (policy : ConflictPolicy) (nowTs : Int) (cs : List Candidate) :
    List Candidate :=
  List.insertionSort (fun a b => mergeCmp policy nowTs a b ≤ 0) cs

/-- The pure merge engine: sort the batch, then fold the per-candidate
decision over it. -/
def mergeCandidates (nowTs : Int) (input : MergeInput) : MergeResult :=
  let sorted := sortCandidates input.policy nowTs input.candidates
  let fin := sorted.foldl
    (mergeStep input.policy input.allowNull input.skipRecencyCheck nowTs)
    ⟨input.profile, input.provenance, [], [], []⟩
  ⟨fin.profile, fin.provenance, fin.updated, fin.rejected, fin.history⟩

/-- Character class `[a-zA-Z0-9_]`. -/
def isWordChar (c : Char) : Bool := c.isAlpha || c.isDigit || c = '_'

/-- Splits a character list at a separator character. -/
def splitSegs (sep : Char) : List Char → List (List Char)
  | [] => [[]]
  | c :: cs =>
      let rest := splitSegs sep cs
      if c = sep then [] :: rest
      else
        match rest with
        | [] => [[c]]
        | seg :: segs => (c :: seg) :: segs

/-- Default extras key pattern: a string matches
`^[a-zA-Z0-9_]+(\.[a-zA-Z0-9_]+)*$` exactly when every dot-separated segment
is nonempty and made of word characters. -/
def defaultKeyPattern (s : String) : Bool :=
  (splitSegs '.' s.data).all (fun seg => !seg.isEmpty && seg.all isWordChar)

/-- The extras limits after resolving every `??` fallback of the source. -/
structure ExtrasConfig where
  keyRegex : String → Bool
  maxKeyLength : Nat
  maxStringLength : Nat
  allowArrays : Bool
  allowNestedObjects : Bool
  maxNestingDepth : Nat
  maxArrayLength : Nat

/-- Resolves the configured extras policy against the defaults. -/
def resolveExtrasConfig (policy : ConflictPolicy) : ExtrasConfig :=
  let ep := policy.extrasPolicy.getD {}
  { keyRegex := ep.keyPattern.getD defaultKeyPattern
    maxKeyLength := ep.maxKeyLength.getD 64
    maxStringLength := min (ep.maxStringLength.getD 512) policy.maxFieldLength
    allowArrays := ep.allowArrays.getD false
    allowNestedObjects := ep.allowNestedObjects.getD false
    maxNestingDepth := ep.maxNestingDepth.getD 2
    maxArrayLength := ep.maxArrayLength.getD 32 }

mutual

/-- Recursive value rule of the extras sanitizer (`sanitizeValue`): `none`
models a dropped (undefined) value. Numbers are always finite in this model,
so the `Number.isFinite` filter always passes. -/
def sanitizeValue (cfg : ExtrasConfig) (depth : Nat) : Value → Option Value
  | .vNull => some .vNull
  | .vStr s =>
      some (.vStr (if s.length > cfg.maxStringLength then strTake s cfg.maxStringLength else s))
  | .vNum q => some (.vNum q)
  | .vBool b => some (.vBool b)
  | .vArr xs =>
      if !cfg.allowArrays then none
      else
        let ys := sanitizeArray cfg depth cfg.maxArrayLength xs
        if ys.isEmpty then none else some (.vArr ys)
  | .vObj es =>
      if !cfg.allowNestedObjects then none
      else if cfg.maxNestingDepth ≤ depth then none
      else
        let fs := sanitizeEntries cfg depth es
        if fs.isEmpty then none else some (.vObj fs)

/-- Array elements, limited to the first `maxArrayLength` items
(`raw.slice(0, maxArrayLength)` followed by element sanitization). -/
def sanitizeArray (cfg : ExtrasConfig) (depth : Nat) : Nat → List Value → List Value
  | _, [] => []
  | 0, _ :: _ => []
  | n + 1, x :: xs =>
      match sanitizeValue cfg depth x with
      | some y => y :: sanitizeArray cfg depth n xs
      | none => sanitizeArray cfg depth n xs

/-- Nested-object entries: key length and pattern checks, then the value rule
one level deeper. -/
def sanitizeEntries (cfg : ExtrasConfig) (depth : Nat) :
    List (String × Value) → List (String × Value)
  | [] => []
  | (k, v) :: rest =>
      if k.length > cfg.maxKeyLength then sanitizeEntries cfg depth rest
      else if !cfg.keyRegex k then sanitizeEntries cfg depth rest
      else
        match sanitizeValue cfg (depth + 1) v with
        | some y => (k, y) :: sanitizeEntries cfg depth rest
        | none => sanitizeEntries cfg depth rest

end

/-- Top-level extras entries: stop once `extrasMaxKeys` keys survive, apply
the key checks and the value rule at depth 0. -/
def sanitizeTopEntries (policy : ConflictPolicy) (cfg : ExtrasConfig)
    (acc : List (String × Value)) : List (String × Value) → List (String × Value)
  | [] => acc
  | (k, raw) :: rest =>
      if policy.extrasMaxKeys ≤ acc.length then acc
      else if k.length > cfg.maxKeyLength then sanitizeTopEntries policy cfg acc rest
      else if !cfg.keyRegex k then sanitizeTopEntries policy cfg acc rest
      else
        match sanitizeValue cfg 0 raw with
        | some y => sanitizeTopEntries policy cfg (acc ++ [(k, y)]) rest
        | none => sanitizeTopEntries policy cfg acc rest

/-- Sanitizes a candidate value for the `extras` field. Result `none` models
the `undefined` return (whole-field `extras_invalid`); `some .vNull` is the
null pass-through; a plain map is sanitized and must stay nonempty. -/
def sanitizeExtrasValue (policy : ConflictPolicy) : Option Value → Option Value
  | none => none
  | some .vNull => some .vNull
  | some (.vObj es) =>
      let cfg := resolveExtrasConfig policy
      let s := sanitizeTopEntries policy cfg [] es
      if s.isEmpty then none else some (.vObj s)
  | some _ => none

/-- A stored record as returned by adapter reads. -/
structure StorageRecordL where
  profile : List (String × Value)
  provenance : List (String × Provenance)
  etag : String

/-- A record held by the in-memory adapter (record plus bounded history tail). -/
structure MemoryEntryL where
  profile : List (String × Value)
  provenance : List (String × Provenance)
  etag : String
  history : List HistoryEntry

/-- The in-memory adapter state. -/
structure MemoryStore where
  entries : List (String × MemoryEntryL)
  maxHistory : Option Nat := none

/-- Options of an adapter `set`. -/
structure StorageSetOptions where
  etag : Option String := none
  force : Bool := false

/-- JS truthiness of an optional string (absent and empty are falsy). -/
def jsTruthyStr : Option String → Bool
  | none => false
  | some s => !s.isEmpty

/-- Accumulator loop of the digit parse. -/
def parseNatDigitsGo : List Char → Nat → Option Nat
  | [], acc => some acc
  | c :: cs, acc =>
      if c.isDigit then parseNatDigitsGo cs (acc * 10 + (c.toNat - '0'.toNat))
      else none

/-- JS digit-string parse used for `Number(etag)` on canonical version strings. -/
def parseNatDigits : List Char → Option Nat
  | [] => none
  | cs => parseNatDigitsGo cs 0

/-- The next version string, `String(Number(etag) + 1)`. -/
def bumpEtag (s : String) : String := toString ((parseNatDigits s.data).getD 0 + 1)

/-- Outcome of an adapter `set`: success with the new etag, a thrown
`ConcurrencyError` (message and current etag), or another storage failure.
The adapter state after the call is carried in every case. -/
inductive AdapterSetResult (σ : Type) where
  | ok (etag : String) (s : σ)
  | conflict (message : String) (currentEtag : Option String) (s : σ)
  | failure (message : String) (s : σ)

/-- Read of the in-memory adapter (`MemoryAdapter.get`): a copy of the record. -/
def MemoryAdapter.get (store : MemoryStore) (userId : String) : Option StorageRecordL :=
  (aget store.entries userId).map fun e => ⟨e.profile, e.provenance, e.etag⟩

/-- Applies the bounded-retention trim of the history tail. -/
def trimHistory (maxHistory : Option Nat) (h : List HistoryEntry) : List HistoryEntry :=
  match maxHistory with
  | some m => if m ≠ 0 && h.length > m then h.drop (h.length - m) else h
  | none => h

/-- Write of the in-memory adapter (`MemoryAdapter.set`): optimistic-locking
check against the stored etag, etag bump (first write gets `"1"`), history
append with bounded retention. -/
def MemoryAdapter.set (store : MemoryStore) (userId : String)
    (profile : List (String × Value)) (provenance : List (String × Provenance))
    (options : StorageSetOptions) (historyEntries : Option (List HistoryEntry)) :
    AdapterSetResult MemoryStore :=
  let existing := aget store.entries userId
  let conflict : Bool :=
    jsTruthyStr options.etag &&
    (match existing, options.etag with
     | some e, some tag => decide (e.etag ≠ tag)
     | _, _ => false) &&
    !options.force
  if conflict then
    .conflict "etag mismatch" (existing.map (·.etag)) store
  else
    let nextEtag := match existing with
      | some e => bumpEtag e.etag
      | none => "1"
    let history0 := (existing.map (·.history)).getD []
    let history := match historyEntries with
      | some hs => trimHistory store.maxHistory (history0 ++ hs)
      | none => history0
    .ok nextEtag
      { store with
        entries := aset store.entries userId ⟨profile, provenance, nextEtag, history⟩ }

/-- The zod collaborator per declared field: `normalize` models
`normalizeEnumValue` on non-null values, `safeParse` the zod parse (`none`
is a failed parse, `some d` success with data `d`), `allowsNull` the
nullability detection. -/
structure FieldSchema where
  normalize : Value → Value
  safeParse : Option Value → Option (Option Value)
  allowsNull : Bool

/-- Applies `normalizeEnumValue`, which returns `null` and `undefined`
unchanged and otherwise recurses into the schema. -/
def normalizeOpt (fs : FieldSchema) : Option Value → Option Value
  | none => none
  | some .vNull => some .vNull
  | some v => some (fs.normalize v)

/-- A FactSheet instance: the registered schema shape and the active policy. -/
structure FactSheetConfigL where
  shape : List (String × FieldSchema)
  policy : ConflictPolicy

/-- Nullability callback handed to the merge engine (`allowsNull(field)`):
`false` for undeclared fields. -/
def allowNullOf (cfg : FactSheetConfigL) (field : String) : Bool :=
  match aget cfg.shape field with
  | none => false
  | some fs => fs.allowsNull

/-- Result of `patch`. -/
structure PatchResultL where
  profile : List (String × Value)
  updated : List (String × Value)
  rejected : List RejectedField

/-- Result of `observe` (sync path; async bookkeeping is out of scope). -/
structure ObserveResultL where
  profile : List (String × Value)
  updated : List (String × Value)
  rejected : List RejectedField
  extracted : List (String × Option Value)
  queued : Bool := false

/-- A value held by the idempotency cache. -/
inductive CachedResult where
  | patchRes (r : PatchResultL)
  | observeRes (r : ObserveResultL)

/-- An idempotency-cache entry with its expiry instant. -/
structure CacheEntry where
  value : CachedResult
  expiresAt : Int

/-- The per-process orchestrator state: adapter storage plus the idempotency
cache (a JS `Map`, i.e. an insertion-ordered association list). -/
structure FactSheetState where
  store : MemoryStore
  cache : List (String × CacheEntry)

/-- Cache capacity bound. -/
def IDEMPOTENCY_CACHE_LIMIT : Nat := 1000

/-- Cache entry time-to-live, 5 minutes. -/
def IDEMPOTENCY_TTL_MS : Int := 5 * 60 * 1000

/-- Cache key, `"<kind>:<userId>:<key>"`. -/
def makeIdempotencyKey (kind userId key : String) : String :=
  kind ++ ":" ++ userId ++ ":" ++ key

/-- Cache read: expired entries are deleted on access and miss. -/
def getIdempotencyCache (nowMs : Int) (cache : List (String × CacheEntry))
    (key : String) : Option CachedResult × List (String × CacheEntry) :=
  match aget cache key with
  | none => (none, cache)
  | some entry =>
      if nowMs > entry.expiresAt then (none, adelete cache key)
      else (some entry.value, cache)

/-- Cache write: prune expired entries, evict the oldest entry when still at
capacity, then insert with a fresh TTL. -/
def setIdempotencyCache (nowMs : Int) (cache : List (String × CacheEntry))
    (key : String) (v : CachedResult) : List (String × CacheEntry) :=
  let pruned := cache.filter (fun kv => !decide (nowMs > kv.2.expiresAt))
  let evicted := if IDEMPOTENCY_CACHE_LIMIT ≤ pruned.length then pruned.drop 1 else pruned
  aset evicted key ⟨v, nowMs + IDEMPOTENCY_TTL_MS⟩

/-- Orchestrator-level failures of the persistence path. -/
inductive OrchError where
  | concurrencyError (message : String) (currentEtag : Option String)
  | persistenceError (message : String) (attempts : Nat) (cause : Option OrchError)
  | otherError (message : String)

/-- An abstract storage adapter as the retry loop sees it (state-passing
veneer over `get`/`set`). -/
structure AdapterOps (σ : Type) where
  get : σ → String → Option StorageRecordL
  set : σ → String → List (String × Value) → List (String × Provenance) →
        StorageSetOptions → Option (List HistoryEntry) → AdapterSetResult σ

/-- The in-memory adapter packaged for the retry loop. -/
def memAdapterOps : AdapterOps MemoryStore :=
  { get := MemoryAdapter.get
    set := MemoryAdapter.set }

/-- The lazily-created default record (`defaultRecord`). -/
def defaultRecord : StorageRecordL := ⟨[], [], "0"⟩

/-- The body of `mergeAndPersistWithRetry`: while `attempts < 2`, merge
against the record read last, persist conditioned on its etag; on a
concurrency conflict at `attempts = 0`, re-read and go around once; any later
error is rethrown; leaving the loop raises a `PersistenceError` carrying the
attempt count and last cause. The loop guard `attempts < 2` is carried as the
structural fuel `2 - attempts`: the loop increments `attempts` exactly when
it recurs, so fuel `0` is the `attempts < 2` exit. -/
def mergeAndPersistGo {σ : Type} (A : AdapterOps σ) (policy : ConflictPolicy)
    (anull : String → Bool) (skip : Bool) (nowTs : Int) (userId : String)
    (cands : List Candidate) (existing : StorageRecordL) (attempts : Nat)
    (lastError : Option OrchError) (s : σ) :
    Nat → Except OrchError (MergeResult × σ)
  | 0 =>
      .error (.persistenceError "Failed to persist after retry attempts" attempts lastError)
  | fuel + 1 =>
    let merged := mergeCandidates nowTs
      { profile := existing.profile, provenance := existing.provenance,
        candidates := cands, policy := policy, allowNull := anull,
        skipRecencyCheck := skip }
    match A.set s userId merged.profile merged.provenance
        { etag := some existing.etag, force := false } (some merged.history) with
    | .ok _ s2 => .ok (merged, s2)
    | .conflict msg cur s2 =>
        if attempts = 0 then
          mergeAndPersistGo A policy anull skip nowTs userId cands
            ((A.get s2 userId).getD defaultRecord) (attempts + 1)
            (some (.concurrencyError msg cur)) s2 fuel
        else .error (.concurrencyError msg cur)
    | .failure msg _ => .error (.otherError msg)

/-- Entry point of the retry loop: initial read (default record when absent),
then the loop from `attempts = 0` with its guard value `2`. -/
def mergeAndPersistWithRetry {σ : Type} (A : AdapterOps σ) (policy : ConflictPolicy)
    (anull : String → Bool) (skip : Bool) (nowTs : Int) (userId : String)
    (cands : List Candidate) (s : σ) : Except OrchError (MergeResult × σ) :=
  mergeAndPersistGo A policy anull skip nowTs userId cands
    ((A.get s userId).getD defaultRecord) 0 none s 2

/-- A `patch` request. -/
structure PatchRequestL where
  userId : String
  facts : List (String × Option Value)
  source : Option String := none
  confidence : Option ℚ := none
  idempotencyKey : Option String := none

/-- An `observe` request (the texts live inside the extractor collaborator
and are not needed past extraction). -/
structure ObserveRequestL where
  userId : String
  source : Option String := none
  confidence : Option ℚ := none
  idempotencyKey : Option String := none

/-- One field of the patch validation loop: unknown-field gate, extras
sanitization gate, enum normalization, zod parse; survivors become trusted
candidates with `confidence ?? 1` and `source ?? "manual"`. -/
def patchStepField (cfg : FactSheetConfigL) (req : PatchRequestL)
    (acc : List RejectedField × List Candidate) (fv : String × Option Value) :
    List RejectedField × List Candidate :=
  let rejected := acc.1
  let accepted := acc.2
  let field := fv.1
  let value := fv.2
  match aget cfg.shape field with
  | none => (rejected ++ [⟨field, value, .unknown_field⟩], accepted)
  | some fieldSchema =>
      let sanitizedValue :=
        if field = "extras" then sanitizeExtrasValue cfg.policy value else value
      if field = "extras" && sanitizedValue.isNone then
        (rejected ++ [⟨field, value, .extras_invalid⟩], accepted)
      else
        match fieldSchema.safeParse (normalizeOpt fieldSchema sanitizedValue) with
        | none => (rejected ++ [⟨field, value, .schema_invalid⟩], accepted)
        | some parsedData =>
            (rejected,
             accepted ++
               [⟨field, parsedData, req.confidence.getD 1, false,
                 req.source.getD "manual", none⟩])

/-- Recovers a `PatchResult` from a cache hit (the source performs an
unchecked cast; an observe result would surface through its shared fields). -/
def cachedAsPatch : CachedResult → PatchResultL
  | .patchRes r => r
  | .observeRes o => ⟨o.profile, o.updated, o.rejected⟩

/-- Recovers an `ObserveResult` from a cache hit (unchecked cast in the
source; kind-prefixed keys keep the branches apart in practice). -/
def cachedAsObserve : CachedResult → ObserveResultL
  | .observeRes r => r
  | .patchRes p => ⟨p.profile, p.updated, p.rejected, [], false⟩

/-- The post-cache body of `patch`: validate the facts in order, merge and
persist with `skipRecencyCheck = true`, populate the cache on success. -/
def patchMain (cfg : FactSheetConfigL) (nowMs : Int) (st : FactSheetState)
    (req : PatchRequestL) (idKey : Option String) :
    Except OrchError PatchResultL × FactSheetState :=
  let va := req.facts.foldl (patchStepField cfg req) ([], [])
  match mergeAndPersistWithRetry memAdapterOps cfg.policy (allowNullOf cfg) true
      nowMs req.userId va.2 st.store with
  | .error e => (.error e, st)
  | .ok (merged, store2) =>
      let result : PatchResultL := ⟨merged.profile, merged.updated, va.1 ++ merged.rejected⟩
      let cache2 := match idKey with
        | some k => setIdempotencyCache nowMs st.cache k (.patchRes result)
        | none => st.cache
      (.ok result, { store := store2, cache := cache2 })

/-- The public `patch` operation: idempotency-cache short-circuit, then the
pipeline. -/
def patch (cfg : FactSheetConfigL) (nowMs : Int) (st : FactSheetState)
    (req : PatchRequestL) : Except OrchError PatchResultL × FactSheetState :=
  match req.idempotencyKey with
  | some key =>
      let idKey := makeIdempotencyKey "patch" req.userId key
      let hit := getIdempotencyCache nowMs st.cache idKey
      match hit.1 with
      | some cached => (.ok (cachedAsPatch cached), { st with cache := hit.2 })
      | none => patchMain cfg nowMs { st with cache := hit.2 } req (some idKey)
  | none => patchMain cfg nowMs st req none

/-- One candidate of `validateCandidates` (observe path): unknown-field gate,
extras gate, normalization, parse; survivors get the source default chain
`candidate.source ?? (inferred ? "inferred" : request.source ?? "observe")`
and the confidence chain `candidate.confidence ?? request.confidence ?? 0.8`;
the sanitized value is recorded in `extracted`. -/
def observeStepCand (cfg : FactSheetConfigL) (req : ObserveRequestL)
    (acc : List RejectedField × List Candidate × List (String × Option Value))
    (c : ExtractorCandidateL) :
    List RejectedField × List Candidate × List (String × Option Value) :=
  let rejected := acc.1
  let accepted := acc.2.1
  let extracted := acc.2.2
  match aget cfg.shape c.field with
  | none => (rejected ++ [⟨c.field, c.value, .unknown_field⟩], accepted, extracted)
  | some fs =>
      let sanitizedValue :=
        if c.field = "extras" then sanitizeExtrasValue cfg.policy c.value else c.value
      if c.field = "extras" && sanitizedValue.isNone then
        (rejected ++ [⟨c.field, c.value, .extras_invalid⟩], accepted, extracted)
      else
        match fs.safeParse (normalizeOpt fs sanitizedValue) with
        | none => (rejected ++ [⟨c.field, c.value, .schema_invalid⟩], accepted, extracted)
        | some parsedData =>
            (rejected,
             accepted ++
               [⟨c.field, parsedData,
                 c.confidence.getD (req.confidence.getD (mkRat 8 10)),
                 c.inferred,
                 c.source.getD (if c.inferred then "inferred" else req.source.getD "observe"),
                 c.timestamp⟩],
             aset extracted c.field sanitizedValue)

/-- The post-extraction body of `observe` (`processObserve`): validate the
extractor candidates, merge and persist with `skipRecencyCheck = false`,
populate the cache on success. -/
def processObserve (cfg : FactSheetConfigL) (nowMs : Int) (st : FactSheetState)
    (req : ObserveRequestL) (extractionCandidates : List ExtractorCandidateL)
    (idKey : Option String) : Except OrchError ObserveResultL × FactSheetState :=
  let va := extractionCandidates.foldl (observeStepCand cfg req) ([], [], [])
  match mergeAndPersistWithRetry memAdapterOps cfg.policy (allowNullOf cfg) false
      nowMs req.userId va.2.1 st.store with
  | .error e => (.error e, st)
  | .ok (merged, store2) =>
      let result : ObserveResultL :=
        ⟨merged.profile, merged.updated, va.1 ++ merged.rejected, va.2.2, false⟩
      let cache2 := match idKey with
        | some k => setIdempotencyCache nowMs st.cache k (.observeRes result)
        | none => st.cache
      (.ok result, { store := store2, cache := cache2 })

/-- The public sync `observe` operation, parametrized by the candidate list
the external extractor returned: idempotency-cache short-circuit, then the
pipeline. -/
def observe (cfg : FactSheetConfigL) (nowMs : Int) (st : FactSheetState)
    (req : ObserveRequestL) (extractionCandidates : List ExtractorCandidateL) :
    Except OrchError ObserveResultL × FactSheetState :=
  match req.idempotencyKey with
  | some key =>
      let idKey := makeIdempotencyKey "observe" req.userId key
      let hit := getIdempotencyCache nowMs st.cache idKey
      match hit.1 with
      | some cached => (.ok (cachedAsObserve cached), { st with cache := hit.2 })
      | none => processObserve cfg nowMs { st with cache := hit.2 } req
          extractionCandidates (some idKey)
  | none => processObserve cfg nowMs st req extractionCandidates none

/-- One public write operation with its call-time clock. -/
inductive OpL where
  | opPatch (nowMs : Int) (req : PatchRequestL)
  | opObserve (nowMs : Int) (req : ObserveRequestL) (cands : List ExtractorCandidateL)

/-- State transition of one public operation. -/
def runOp (cfg : FactSheetConfigL) (st : FactSheetState) : OpL → FactSheetState
  | .opPatch n r => (patch cfg n st r).2
  | .opObserve n r cs => (observe cfg n st r cs).2

/-- State after a sequence of public operations. -/
def runOps (cfg : FactSheetConfigL) (st : FactSheetState) (ops : List OpL) :
    FactSheetState :=
  ops.foldl (runOp cfg) st

/-- The empty orchestrator state (fresh adapter, empty cache). -/
def emptyState : FactSheetState := ⟨⟨[], none⟩, []⟩

/-- The processing order as the spec words it, independent of the source
comparator: candidate `a` comes no later than `b` when it has strictly higher
effective priority, or equal priority and strictly newer timestamp, or equal
timestamps and strictly higher confidence, or equal confidence and a field
name that is not later in ascending string order. -/
def specCandidateLe (policy : ConflictPolicy) (nowTs : Int) (a b : Candidate) : Prop :=
  priorityOf policy a.source > priorityOf policy b.source ∨
  (priorityOf policy a.source = priorityOf policy b.source ∧
    (resolvedTimestamp nowTs a > resolvedTimestamp nowTs b ∨
      (resolvedTimestamp nowTs a = resolvedTimestamp nowTs b ∧
        (a.confidence > b.confidence ∨
          (a.confidence = b.confidence ∧ strLtb b.field.data a.field.data = false)))))

instance (policy : ConflictPolicy) (nowTs : Int) :
    DecidableRel (specCandidateLe policy nowTs) := fun a b => by
  unfold specCandidateLe; infer_instance

/-- Derived view: the record the sequential pipeline reads before merging. -/
def seqExisting (store : MemoryStore) (u : String) : StorageRecordL :=
  (MemoryAdapter.get store u).getD defaultRecord

/-- Derived view: the merge result of one sequential pipeline run. -/
def seqMerge (policy : ConflictPolicy) (anull : String → Bool) (skip : Bool)
    (now : Int) (u : String) (cs : List Candidate) (store : MemoryStore) : MergeResult :=
  mergeCandidates now
    ⟨(seqExisting store u).profile, (seqExisting store u).provenance, cs, policy, anull, skip⟩

/-- Derived view: the etag assigned by the next in-memory write. -/
def seqNextEtag (store : MemoryStore) (u : String) : String :=
  match aget store.entries u with
  | some e => bumpEtag e.etag
  | none => "1"

/-- Derived view: the store after one sequential pipeline run. -/
def seqStore (policy : ConflictPolicy) (anull : String → Bool) (skip : Bool)
    (now : Int) (u : String) (cs : List Candidate) (store : MemoryStore) : MemoryStore :=
  { store with
    entries := aset store.entries u
      ⟨(seqMerge policy anull skip now u cs store).profile,
       (seqMerge policy anull skip now u cs store).provenance,
       seqNextEtag store u,
       trimHistory store.maxHistory
         ((((aget store.entries u).map (·.history)).getD []) ++
          (seqMerge policy anull skip now u cs store).history)⟩ }

/-- A scripted adapter that reports a CAS conflict on every write, modelling
a concurrent writer landing between each read and persist. Its state counts
the attempted writes. -/
def conflictEveryTimeOps : AdapterOps Nat :=
  { get := fun _ _ => some ⟨[], [], "7"⟩
    set := fun n _ _ _ _ _ => .conflict "etag mismatch" (some "9") (n + 1) }

/-- Fixture: a plain required-string field schema. -/
def exStrSchema : FieldSchema :=
  { normalize := id
    safeParse := fun v => match v with
      | some (.vStr s) => some (some (.vStr s))
      | _ => none
    allowsNull := false }

/-- Fixture: an anything-goes nullable field schema (for `extras`). -/
def exAnySchema : FieldSchema :=
  { normalize := id
    safeParse := fun v => some v
    allowsNull := true }

/-- Fixture: a FactSheet with two string fields and an extras map, default
policy. -/
def exCfg : FactSheetConfigL :=
  { shape := [("name", exStrSchema), ("role", exStrSchema), ("extras", exAnySchema)]
    policy := DEFAULT_POLICY }

/-- Fixture: a patch op carrying an out-of-range confidence of 5. -/
def exOpConf5 : OpL :=
  .opPatch 0 { userId := "u1", facts := [("name", some (.vStr "Ada"))], confidence := some 5 }

/-- Fixture: a state holding one record for `u1` at etag `"1"`. -/
def exState1 : FactSheetState :=
  ⟨⟨[("u1", ⟨[("name", .vStr "Ada")],
             [("name", ⟨.vStr "Ada", "manual", 50, 1, false⟩)], "1", []⟩)], none⟩, []⟩

/-- Confidence range predicate of the data model, `confidence ∈ [0, 1]`. -/
def confOK (q : ℚ) : Prop := 0 ≤ q ∧ q ≤ 1

/-- All provenance confidences of a provenance map are in range. -/
def provConfOK (prov : List (String × Provenance)) : Prop :=
  ∀ f pv, aget prov f = some pv → confOK pv.confidence

/-- All provenance confidences of every stored record are in range. -/
def storeConfOK (store : MemoryStore) : Prop :=
  ∀ u e, aget store.entries u = some e → provConfOK e.provenance

/-- All candidate confidences of a merge batch are in range. -/
def candsConfOK (cs : List Candidate) : Prop := ∀ c ∈ cs, confOK c.confidence

/-- All confidences supplied by one public operation are in range. -/
def opConfOK : OpL → Prop
  | .opPatch _ r => ∀ q, r.confidence = some q → confOK q
  | .opObserve _ r cs =>
      (∀ q, r.confidence = some q → confOK q) ∧
      (∀ c ∈ cs, ∀ q, c.confidence = some q → confOK q)

/-- All string-valued fields of a profile respect the length bound. -/
def profileStrOK (maxLen : Nat) (profile : List (String × Value)) : Prop :=
  ∀ f s, aget profile f = some (.vStr s) → s.length ≤ maxLen

theorem aget_aset_self {α : Type} (l : List (String × α)) (k : String) (v : α) :
    aget (aset l k v) k = some v := by
  induction l with
  | nil => simp [aset, aget]
  | cons hd tl ih =>
      obtain ⟨k', w⟩ := hd
      by_cases h : k' = k <;> simp [aset, aget, h, ih]

theorem aget_aset_ne {α : Type} (l : List (String × α)) (k k' : String) (v : α)
    (h : k' ≠ k) : aget (aset l k v) k' = aget l k' := by
  induction l with
  | nil => simp [aset, aget, Ne.symm h]
  | cons hd tl ih =>
      obtain ⟨k0, w⟩ := hd
      by_cases h0 : k0 = k
      · subst h0
        simp [aset, aget, Ne.symm h]
      · simp [aset, aget, h0, ih]

theorem strLtb_asymm : ∀ as bs, strLtb as bs = true → strLtb bs as = false := by
  intro as
  induction as with
  | nil => intro bs h; cases bs <;> simp [strLtb]
  | cons a as ih =>
      intro bs h
      cases bs with
      | nil => simp [strLtb] at h
      | cons b bs =>
          simp only [strLtb] at h ⊢
          by_cases hab : a.toNat < b.toNat
          · have : ¬ b.toNat < a.toNat := by omega
            simp [hab, this]
          · by_cases hba : b.toNat < a.toNat
            · simp [hab, hba] at h
            · simp [hab, hba] at h ⊢
              exact ih bs h

theorem strLtb_le_trans :
    ∀ as bs cs, strLtb bs as = false → strLtb cs bs = false → strLtb cs as = false := by
  intro as
  induction as with
  | nil =>
      intro bs cs _ _
      cases cs <;> simp [strLtb]
  | cons a as ih =>
      intro bs cs h1 h2
      cases bs with
      | nil => simp [strLtb] at h1
      | cons b bs =>
          cases cs with
          | nil => simp [strLtb] at h2
          | cons c cs =>
              simp only [strLtb] at h1 h2 ⊢
              by_cases hba : b.toNat < a.toNat
              · simp [hba] at h1
              · by_cases hcb : c.toNat < b.toNat
                · simp [hcb, hba] at h2
                · by_cases hab : a.toNat < b.toNat
                  · have hca : ¬ c.toNat < a.toNat := by omega
                    have hac : a.toNat < c.toNat := by omega
                    simp [hca, hac]
                  · by_cases hbc : b.toNat < c.toNat
                    · have hca : ¬ c.toNat < a.toNat := by omega
                      have hac : a.toNat < c.toNat := by omega
                      simp [hca, hac]
                    · have hca : ¬ c.toNat < a.toNat := by omega
                      have hac : ¬ a.toNat < c.toNat := by omega
                      simp [hba, hab] at h1
                      simp [hcb, hbc] at h2
                      simp [hca, hac]
                      exact ih bs cs h1 h2

theorem specLe_trans (policy : ConflictPolicy) (nowTs : Int) (a b c : Candidate)
    (h1 : specCandidateLe policy nowTs a b) (h2 : specCandidateLe policy nowTs b c) :
    specCandidateLe policy nowTs a c := by
  unfold specCandidateLe at h1 h2 ⊢
  rcases h1 with p1 | ⟨ep1, t1 | ⟨et1, c1 | ⟨ec1, f1⟩⟩⟩ <;>
    rcases h2 with p2 | ⟨ep2, t2 | ⟨et2, c2 | ⟨ec2, f2⟩⟩⟩
  all_goals try (left; omega)
  all_goals (right; refine ⟨by omega, ?_⟩)
  all_goals try (left; omega)
  all_goals (right; refine ⟨by omega, ?_⟩)
  all_goals try (left; linarith)
  right
  exact ⟨by rw [ec1, ec2], strLtb_le_trans _ _ _ f1 f2⟩

theorem specLe_total (policy : ConflictPolicy) (nowTs : Int) (a b : Candidate) :
    specCandidateLe policy nowTs a b ∨ specCandidateLe policy nowTs b a := by
  unfold specCandidateLe
  rcases lt_trichotomy (priorityOf policy a.source) (priorityOf policy b.source) with hp | hp | hp
  · right; left; omega
  · rcases lt_trichotomy (resolvedTimestamp nowTs a) (resolvedTimestamp nowTs b) with ht | ht | ht
    · right; right; exact ⟨hp.symm, by left; omega⟩
    · rcases lt_trichotomy a.confidence b.confidence with hc | hc | hc
      · right; right
        exact ⟨hp.symm, by right; exact ⟨ht.symm, by left; linarith⟩⟩
      · by_cases hf : strLtb a.field.data b.field.data = true
        · left; right
          exact ⟨hp, by
            right; exact ⟨ht, by
              right; exact ⟨hc, strLtb_asymm _ _ hf⟩⟩⟩
        · right; right
          exact ⟨hp.symm, by
            right; exact ⟨ht.symm, by
              right; exact ⟨hc.symm, by simpa using hf⟩⟩⟩
      · left; right
        exact ⟨hp, by right; exact ⟨ht, by left; linarith⟩⟩
    · left; right; exact ⟨hp, by left; omega⟩
  · left; left; omega

theorem mergeCmp_le_iff (policy : ConflictPolicy) (nowTs : Int) (a b : Candidate) :
    mergeCmp policy nowTs a b ≤ 0 ↔ specCandidateLe policy nowTs a b := by
  unfold mergeCmp specCandidateLe
  by_cases hp : priorityOf policy b.source - priorityOf policy a.source ≠ 0
  · rw [if_pos hp, Int.cast_nonpos]
    constructor
    · intro h; left; omega
    · rintro (h | ⟨h, _⟩) <;> omega
  · rw [if_neg hp]
    have hpe : priorityOf policy a.source = priorityOf policy b.source := by omega
    by_cases ht : resolvedTimestamp nowTs b - resolvedTimestamp nowTs a ≠ 0
    · rw [if_pos ht, Int.cast_nonpos]
      constructor
      · intro h; right; exact ⟨hpe, by left; omega⟩
      · rintro (h | ⟨_, h | ⟨h, _⟩⟩) <;> omega
    · rw [if_neg ht]
      have hte : resolvedTimestamp nowTs a = resolvedTimestamp nowTs b := by omega
      by_cases hc : b.confidence - a.confidence ≠ 0
      · rw [if_pos hc]
        constructor
        · intro h
          have hlt : b.confidence < a.confidence :=
            lt_of_le_of_ne (by linarith) (fun e => hc (by rw [e, sub_self]))
          right; exact ⟨hpe, by right; exact ⟨hte, by left; linarith⟩⟩
        · rintro (h | ⟨_, h | ⟨_, h | ⟨h, _⟩⟩⟩)
          · omega
          · omega
          · linarith
          · exact absurd (by rw [h]; ring) hc
      · rw [if_neg hc]
        have hce : a.confidence = b.confidence := by
          have h0 := not_not.mp hc
          linarith [sub_eq_zero.mp h0]
        unfold localeCmp
        by_cases hab : strLtb a.field.data b.field.data = true
        · have hba := strLtb_asymm _ _ hab
          rw [if_pos hab]
          constructor
          · intro _
            right; exact ⟨hpe, by right; exact ⟨hte, by right; exact ⟨hce, hba⟩⟩⟩
          · intro _; norm_num
        · rw [if_neg hab]
          by_cases hba : strLtb b.field.data a.field.data = true
          · rw [if_pos hba]
            constructor
            · intro h; norm_num at h
            · rintro (h | ⟨_, h | ⟨_, h | ⟨_, h⟩⟩⟩)
              · omega
              · omega
              · linarith
              · rw [h] at hba; exact absurd hba (by simp)
          · rw [if_neg hba]
            constructor
            · intro _
              right
              exact ⟨hpe, by
                right
                exact ⟨hte, by
                  right; exact ⟨hce, by simpa using hba⟩⟩⟩
            · intro _; norm_num

theorem orderedInsert_congr {α : Type} (r s : α → α → Prop) [DecidableRel r]
    [DecidableRel s] (h : ∀ x y, r x y ↔ s x y) (a : α) :
    ∀ l : List α, List.orderedInsert r a l = List.orderedInsert s a l := by
  intro l
  induction l with
  | nil => rfl
  | cons b bs ih =>
      by_cases hr : r a b
      · rw [List.orderedInsert, List.orderedInsert, if_pos hr, if_pos ((h a b).mp hr)]
      · rw [List.orderedInsert, List.orderedInsert, if_neg hr,
          if_neg (fun hs => hr ((h a b).mpr hs)), ih]

theorem insertionSort_congr {α : Type} (r s : α → α → Prop) [DecidableRel r]
    [DecidableRel s] (h : ∀ x y, r x y ↔ s x y) :
    ∀ l : List α, List.insertionSort r l = List.insertionSort s l := by
  intro l
  induction l with
  | nil => rfl
  | cons b bs ih =>
      rw [List.insertionSort, List.insertionSort, ih, orderedInsert_congr r s h]

/-- Claim C6: the merge engine processes its batch in the order of a stable
sort by descending effective source priority (with unlisted sources at 0,
inside `priorityOf`), then descending timestamp, then descending confidence,
then ascending field name: the source comparator realizes exactly the
spec-side order `specCandidateLe`, the sorted batch is the stable insertion
sort under that order, it is a permutation of the input batch, it is sorted
by that order, and `mergeCandidates` folds its per-candidate decision over
precisely that sequence (so the best candidate per field is applied first). -/
theorem candidate_sort_matches_spec_order (policy : ConflictPolicy) (nowTs : Int) :
    (∀ a b, mergeCmp policy nowTs a b ≤ 0 ↔ specCandidateLe policy nowTs a b) ∧
    (∀ cs, sortCandidates policy nowTs cs =
      List.insertionSort (specCandidateLe policy nowTs) cs) ∧
    (∀ cs, (sortCandidates policy nowTs cs).Perm cs) ∧
    (∀ cs, List.Sorted (specCandidateLe policy nowTs) (sortCandidates policy nowTs cs)) ∧
    (∀ input : MergeInput, mergeCandidates nowTs input =
      (let fin := (List.insertionSort (specCandidateLe input.policy nowTs)
          input.candidates).foldl
        (mergeStep input.policy input.allowNull input.skipRecencyCheck nowTs)
        ⟨input.profile, input.provenance, [], [], []⟩
       ⟨fin.profile, fin.provenance, fin.updated, fin.rejected, fin.history⟩)) := by
  have hiff := mergeCmp_le_iff policy nowTs
  have heq : ∀ cs, sortCandidates policy nowTs cs =
      List.insertionSort (specCandidateLe policy nowTs) cs :=
    fun cs => insertionSort_congr _ _ hiff cs
  refine ⟨hiff, heq, fun cs => List.perm_insertionSort _ cs, fun cs => ?_, fun input => ?_⟩
  · rw [heq]
    haveI : IsTotal Candidate (specCandidateLe policy nowTs) := ⟨specLe_total policy nowTs⟩
    haveI : IsTrans Candidate (specCandidateLe policy nowTs) := ⟨specLe_trans policy nowTs⟩
    exact List.sorted_insertionSort _ _
  · show mergeCandidates nowTs input = _
    rw [mergeCandidates]
    rw [show sortCandidates input.policy nowTs input.candidates =
      List.insertionSort (specCandidateLe input.policy nowTs) input.candidates from
      insertionSort_congr _ _ (mergeCmp_le_iff input.policy nowTs) input.candidates]

/-- Claim C5: with `skip_recency_check = false`, a candidate for a field with
existing provenance, equal effective priority, and a timestamp exactly
`recency_window_ms` older than the existing provenance timestamp is rejected
as `outside_recency` (rule 3 fires before the `older_timestamp` rule), and
the field's profile value and provenance are unchanged. The candidate is
assumed to reach rule 3: its value is defined and its confidence is at least
`min_confidence`; the window is a duration, hence nonnegative. -/
theorem exact_recency_window_rejected (policy : ConflictPolicy) (anull : String → Bool)
    (prof : List (String × Value)) (prov : List (String × Provenance))
    (now : Int) (c : Candidate) (ex : Provenance) (v : Value)
    (hprov : aget prov c.field = some ex)
    (hval : c.value = some v)
    (hconf : policy.minConfidence ≤ c.confidence)
    (hprio : priorityOf policy c.source = priorityOf policy ex.source)
    (hts : resolvedTimestamp now c = ex.timestamp - policy.recencyWindowMs)
    (hwin : 0 ≤ policy.recencyWindowMs) :
    (mergeCandidates now ⟨prof, prov, [c], policy, anull, false⟩).rejected =
      [⟨c.field, c.value, .outside_recency⟩] ∧
    (mergeCandidates now ⟨prof, prov, [c], policy, anull, false⟩).profile = prof ∧
    (mergeCandidates now ⟨prof, prov, [c], policy, anull, false⟩).provenance = prov := by
  have hsort : sortCandidates policy now [c] = [c] := rfl
  have hstep : mergeStep policy anull false now ⟨prof, prov, [], [], []⟩ c =
      rejectCand ⟨prof, prov, [], [], []⟩ c (resolvedTimestamp now c) .outside_recency := by
    rw [mergeStep]
    simp only [hval, hprov]
    rw [if_neg (not_lt.mpr hconf)]
    have hstale : (!false &&
        (decide (priorityOf policy c.source ≤ priorityOf policy ex.source) &&
         decide (resolvedTimestamp now c ≤ ex.timestamp) &&
         decide (ex.timestamp - resolvedTimestamp now c ≥ policy.recencyWindowMs))) = true := by
      simp only [Bool.not_false, Bool.true_and, Bool.and_eq_true, decide_eq_true_eq]
      refine ⟨⟨le_of_eq hprio, by omega⟩, by omega⟩
    rw [if_pos hstale]
  simp only [mergeCandidates, hsort, List.foldl, hstep, rejectCand]
  simp

/-- Witness for C5 at a concrete input: existing `role = "founder"` from
`manual` at time 200000000, candidate `role = "engineer"` from `manual` at
exactly one default recency window (86400000 ms) earlier. -/
theorem exact_recency_window_rejected_witness :
    (mergeCandidates 300000000
      ⟨[("role", .vStr "founder")],
       [("role", ⟨.vStr "founder", "manual", 200000000, 1, false⟩)],
       [⟨"role", some (.vStr "engineer"), 1, false, "manual", some 113600000⟩],
       DEFAULT_POLICY, fun _ => false, false⟩).rejected =
      [⟨"role", some (.vStr "engineer"), .outside_recency⟩] ∧
    (mergeCandidates 300000000
      ⟨[("role", .vStr "founder")],
       [("role", ⟨.vStr "founder", "manual", 200000000, 1, false⟩)],
       [⟨"role", some (.vStr "engineer"), 1, false, "manual", some 113600000⟩],
       DEFAULT_POLICY, fun _ => false, false⟩).profile = [("role", .vStr "founder")] ∧
    (mergeCandidates 300000000
      ⟨[("role", .vStr "founder")],
       [("role", ⟨.vStr "founder", "manual", 200000000, 1, false⟩)],
       [⟨"role", some (.vStr "engineer"), 1, false, "manual", some 113600000⟩],
       DEFAULT_POLICY, fun _ => false, false⟩).provenance =
      [("role", ⟨.vStr "founder", "manual", 200000000, 1, false⟩)] :=
  exact_recency_window_rejected DEFAULT_POLICY (fun _ => false) _ _ 300000000
    ⟨"role", some (.vStr "engineer"), 1, false, "manual", some 113600000⟩
    ⟨.vStr "founder", "manual", 200000000, 1, false⟩ (.vStr "engineer")
    rfl rfl (by decide) rfl (by decide) (by decide)

/-- Claim C3, corrected: with `skip_recency_check = true`, equal effective
priority and an exactly equal timestamp, the candidate is NOT stopped by rule
4 (strict `<`), so it is accepted and overwrites the field: the tie goes to
the candidate, not to the existing value. (The original claim asserted the
opposite.) The candidate is assumed to pass rules 1-2 and the nullability
rule. -/
theorem equal_timestamp_tie_candidate_wins (policy : ConflictPolicy) (anull : String → Bool)
    (prof : List (String × Value)) (prov : List (String × Provenance))
    (now : Int) (c : Candidate) (ex : Provenance) (v : Value)
    (hprov : aget prov c.field = some ex)
    (hval : c.value = some v)
    (hconf : policy.minConfidence ≤ c.confidence)
    (hprio : priorityOf policy c.source = priorityOf policy ex.source)
    (hts : resolvedTimestamp now c = ex.timestamp)
    (hnull : v.isNull = false ∨ anull c.field = true) :
    (mergeCandidates now ⟨prof, prov, [c], policy, anull, true⟩).profile =
      aset prof c.field (truncateValue v policy.maxFieldLength) ∧
    (mergeCandidates now ⟨prof, prov, [c], policy, anull, true⟩).provenance =
      aset prov c.field
        ⟨truncateValue v policy.maxFieldLength, c.source, ex.timestamp,
         c.confidence, c.inferred⟩ ∧
    (mergeCandidates now ⟨prof, prov, [c], policy, anull, true⟩).updated =
      [(c.field, truncateValue v policy.maxFieldLength)] ∧
    (mergeCandidates now ⟨prof, prov, [c], policy, anull, true⟩).rejected = [] := by
  have hsort : sortCandidates policy now [c] = [c] := rfl
  have hnullc : (v.isNull && !anull c.field) = false := by
    rcases hnull with h | h <;> simp [h]
  have hstep : mergeStep policy anull true now ⟨prof, prov, [], [], []⟩ c =
      { profile := aset prof c.field (truncateValue v policy.maxFieldLength),
        provenance := aset prov c.field
          ⟨truncateValue v policy.maxFieldLength, c.source, resolvedTimestamp now c,
           c.confidence, c.inferred⟩,
        updated := aset [] c.field (truncateValue v policy.maxFieldLength),
        rejected := [],
        history := [] ++
          [{ field := c.field, value := some (truncateValue v policy.maxFieldLength),
             previousValue := aget prof c.field, source := c.source,
             timestamp := resolvedTimestamp now c, confidence := c.confidence,
             inferred := c.inferred,
             action := if v.isNull then .delete else .set, reason := none }] } := by
    rw [mergeStep]
    simp only [hval, hprov]
    rw [if_neg (not_lt.mpr hconf)]
    rw [if_neg (by simp : ¬ ((!true : Bool) &&
      (decide (priorityOf policy c.source ≤ priorityOf policy ex.source) &&
       decide (resolvedTimestamp now c ≤ ex.timestamp) &&
       decide (ex.timestamp - resolvedTimestamp now c ≥ policy.recencyWindowMs))) = true)]
    rw [if_neg (show ¬ ((decide (priorityOf policy c.source = priorityOf policy ex.source) &&
       decide (resolvedTimestamp now c < ex.timestamp)) = true) by
      simp only [Bool.and_eq_true, decide_eq_true_eq, not_and]
      intro _ h2; omega)]
    rw [if_neg (show
      ¬ (decide (priorityOf policy c.source < priorityOf policy ex.source) = true) by
      simp only [decide_eq_true_eq]; omega)]
    rw [if_neg (by simp [hnullc] : ¬ ((v.isNull && !anull c.field) = true))]
  simp only [mergeCandidates, hsort, List.foldl, hstep, hts]
  simp [aset]

/-- Witness for the corrected C3 at a concrete input: candidate ties with
`manual`-sourced `role` at timestamp 100 and wins. -/
theorem equal_timestamp_tie_candidate_wins_witness :
    (mergeCandidates 1000
      ⟨[("role", .vStr "A")],
       [("role", ⟨.vStr "A", "manual", 100, 1, false⟩)],
       [⟨"role", some (.vStr "B"), 1, false, "manual", some 100⟩],
       DEFAULT_POLICY, fun _ => false, true⟩).profile =
      aset [("role", .vStr "A")] "role" (truncateValue (.vStr "B") DEFAULT_POLICY.maxFieldLength) ∧
    (mergeCandidates 1000
      ⟨[("role", .vStr "A")],
       [("role", ⟨.vStr "A", "manual", 100, 1, false⟩)],
       [⟨"role", some (.vStr "B"), 1, false, "manual", some 100⟩],
       DEFAULT_POLICY, fun _ => false, true⟩).provenance =
      aset [("role", ⟨.vStr "A", "manual", 100, 1, false⟩)] "role"
        ⟨truncateValue (.vStr "B") DEFAULT_POLICY.maxFieldLength, "manual", 100, 1, false⟩ ∧
    (mergeCandidates 1000
      ⟨[("role", .vStr "A")],
       [("role", ⟨.vStr "A", "manual", 100, 1, false⟩)],
       [⟨"role", some (.vStr "B"), 1, false, "manual", some 100⟩],
       DEFAULT_POLICY, fun _ => false, true⟩).updated =
      [("role", truncateValue (.vStr "B") DEFAULT_POLICY.maxFieldLength)] ∧
    (mergeCandidates 1000
      ⟨[("role", .vStr "A")],
       [("role", ⟨.vStr "A", "manual", 100, 1, false⟩)],
       [⟨"role", some (.vStr "B"), 1, false, "manual", some 100⟩],
       DEFAULT_POLICY, fun _ => false, true⟩).rejected = [] :=
  equal_timestamp_tie_candidate_wins DEFAULT_POLICY (fun _ => false) _ _ 1000
    ⟨"role", some (.vStr "B"), 1, false, "manual", some 100⟩
    ⟨.vStr "A", "manual", 100, 1, false⟩ (.vStr "B")
    rfl rfl (by decide) rfl rfl (Or.inl rfl)

/-- Counterexample to C3 as stated: at a run with `skip_recency_check = true`,
equal priority (`manual` vs `manual`) and exactly equal timestamps (100), the
stored value flips from `"A"` to `"B"` and the provenance entry is replaced —
the existing value is not preserved. -/
theorem equal_timestamp_tie_updates_cex :
    (aget (mergeCandidates 1000
      ⟨[("role", .vStr "A")],
       [("role", ⟨.vStr "A", "manual", 100, 1, false⟩)],
       [⟨"role", some (.vStr "B"), 1, false, "manual", some 100⟩],
       DEFAULT_POLICY, fun _ => false, true⟩).profile "role") = some (.vStr "B") ∧
    (aget (mergeCandidates 1000
      ⟨[("role", .vStr "A")],
       [("role", ⟨.vStr "A", "manual", 100, 1, false⟩)],
       [⟨"role", some (.vStr "B"), 1, false, "manual", some 100⟩],
       DEFAULT_POLICY, fun _ => false, true⟩).provenance "role") =
      some ⟨.vStr "B", "manual", 100, 1, false⟩ ∧
    Value.vStr "B" ≠ Value.vStr "A" :=
  ⟨rfl, rfl, by simp⟩

theorem mergeAndPersist_mem (policy : ConflictPolicy) (anull : String → Bool)
    (skip : Bool) (now : Int) (u : String) (cs : List Candidate) (store : MemoryStore) :
    mergeAndPersistWithRetry memAdapterOps policy anull skip now u cs store =
      .ok (seqMerge policy anull skip now u cs store,
           seqStore policy anull skip now u cs store) := by
  cases hg : aget store.entries u with
  | none =>
      simp [mergeAndPersistWithRetry, mergeAndPersistGo, memAdapterOps, MemoryAdapter.get,
        MemoryAdapter.set, seqMerge, seqStore, seqExisting, seqNextEtag, defaultRecord,
        jsTruthyStr, hg]
  | some e =>
      simp [mergeAndPersistWithRetry, mergeAndPersistGo, memAdapterOps, MemoryAdapter.get,
        MemoryAdapter.set, seqMerge, seqStore, seqExisting, seqNextEtag, defaultRecord,
        jsTruthyStr, hg]

/-- Claim C2, corrected: an empty candidate batch reaching the merge engine
leaves the stored profile and provenance content unchanged, but a write still
happens — the record's etag is bumped (and a record is created for a
previously-absent subject), contrary to the claim's "etag unchanged". -/
theorem empty_batch_preserves_content_bumps_etag (policy : ConflictPolicy)
    (anull : String → Bool) (skip : Bool) (now : Int) (u : String) (store : MemoryStore) :
    mergeAndPersistWithRetry memAdapterOps policy anull skip now u [] store =
      .ok (⟨(seqExisting store u).profile, (seqExisting store u).provenance, [], [], []⟩,
           seqStore policy anull skip now u [] store) ∧
    (aget (seqStore policy anull skip now u [] store).entries u).map (·.profile) =
      some (seqExisting store u).profile ∧
    (aget (seqStore policy anull skip now u [] store).entries u).map (·.provenance) =
      some (seqExisting store u).provenance ∧
    (aget (seqStore policy anull skip now u [] store).entries u).map (·.etag) =
      some (seqNextEtag store u) := by
  have hm : seqMerge policy anull skip now u [] store =
      ⟨(seqExisting store u).profile, (seqExisting store u).provenance, [], [], []⟩ := rfl
  refine ⟨?_, ?_, ?_, ?_⟩
  · rw [mergeAndPersist_mem, hm]
  all_goals simp [seqStore, aget_aset_self, hm]

/-- Counterexample to C2 as stated: a patch call with an empty facts map (so
the candidate batch reaching the merge engine is empty) against a record at
etag `"1"` succeeds with an unchanged profile and no rejections, yet the
stored etag moves to `"2"`. -/
theorem empty_batch_bumps_etag_cex :
    ((aget exState1.store.entries "u1").map (·.etag) = some "1") ∧
    ((aget (patch exCfg 60 exState1 { userId := "u1", facts := [] }).2.store.entries
        "u1").map (·.etag) = some "2") ∧
    ((patch exCfg 60 exState1 { userId := "u1", facts := [] }).1 =
      .ok ⟨[("name", .vStr "Ada")], [], []⟩) :=
  ⟨rfl, rfl, rfl⟩

/-- Claim C10: the in-memory adapter's `set` on a subject with no stored
record succeeds whatever etag option is supplied — the conflict check
requires an existing record — and assigns the new record the etag `"1"`. -/
theorem memory_first_write_ok (store : MemoryStore) (u : String)
    (p : List (String × Value)) (pv : List (String × Provenance))
    (opts : StorageSetOptions) (h : Option (List HistoryEntry))
    (hmiss : aget store.entries u = none) :
    ∃ st2 : MemoryStore, MemoryAdapter.set store u p pv opts h = .ok "1" st2 ∧
      (aget st2.entries u).map (·.etag) = some "1" := by
  have hset : MemoryAdapter.set store u p pv opts h =
      .ok "1" ⟨aset store.entries u ⟨p, pv, "1", h.elim [] (trimHistory store.maxHistory)⟩,
               store.maxHistory⟩ := by
    cases h <;> simp [MemoryAdapter.set, hmiss, Option.elim]
  refine ⟨_, hset, ?_⟩
  simp [aget_aset_self]

/-- Witness for C10 at a concrete input: an empty store, a `set` carrying a
mismatched etag option `"42"`, still succeeding with etag `"1"`. -/
theorem memory_first_write_ok_witness :
    ∃ st2 : MemoryStore,
      MemoryAdapter.set ⟨[], none⟩ "u9" [] [] ⟨some "42", false⟩ none = .ok "1" st2 ∧
      (aget st2.entries "u9").map (·.etag) = some "1" :=
  memory_first_write_ok ⟨[], none⟩ "u9" [] [] ⟨some "42", false⟩ none rfl

/-- Claim C1 (evidence of the code bug): on the first CAS conflict the
orchestrator re-reads and retries exactly once, but when the retried persist
also reports a CAS conflict the loop rethrows that `ConcurrencyError`
directly — no execution of `mergeAndPersistWithRetry`, over any adapter,
ever produces the `PersistenceError` the spec (and the error type's own
documentation) promises; that construction after the loop is unreachable. -/
theorem double_conflict_rethrows_concurrency :
    (mergeAndPersistWithRetry conflictEveryTimeOps DEFAULT_POLICY (fun _ => false) true 0
        "u1" [] 0 =
      .error (.concurrencyError "etag mismatch" (some "9"))) ∧
    (∀ (σ : Type) (A : AdapterOps σ) (policy : ConflictPolicy) (anull : String → Bool)
        (skip : Bool) (now : Int) (u : String) (cs : List Candidate) (s : σ)
        (msg : String) (att : Nat) (cause : Option OrchError),
      mergeAndPersistWithRetry A policy anull skip now u cs s ≠
        .error (.persistenceError msg att cause)) := by
  constructor
  · rfl
  · intro σ A policy anull skip now u cs s msg att cause
    rw [mergeAndPersistWithRetry]
    simp only [mergeAndPersistGo]
    split
    · simp
    · rw [if_pos trivial]
      split <;> simp
    · simp

theorem aget_setIdempotencyCache (nowMs : Int) (cache : List (String × CacheEntry))
    (key : String) (v : CachedResult) :
    aget (setIdempotencyCache nowMs cache key v) key =
      some ⟨v, nowMs + IDEMPOTENCY_TTL_MS⟩ := by
  unfold setIdempotencyCache
  exact aget_aset_self _ _ _

/-- Claim C7: replaying `patch` with the same idempotency key within the
5-minute TTL returns a result structurally equal to the first call's and
leaves the whole orchestrator state — storage record and etag included —
exactly as the first call left it (the replay is served from the cache and
performs no storage write). The key is assumed fresh before the first call
and the replay clock within the first call's TTL window. -/
theorem patch_idempotent_replay (cfg : FactSheetConfigL) (st : FactSheetState)
    (req : PatchRequestL) (k : String) (now1 now2 : Int)
    (hkey : req.idempotencyKey = some k)
    (hmiss : aget st.cache (makeIdempotencyKey "patch" req.userId k) = none)
    (httl : now2 ≤ now1 + IDEMPOTENCY_TTL_MS) :
    (patch cfg now2 (patch cfg now1 st req).2 req).1 = (patch cfg now1 st req).1 ∧
    (patch cfg now2 (patch cfg now1 st req).2 req).2 = (patch cfg now1 st req).2 := by
  have hget1 : getIdempotencyCache now1 st.cache
      (makeIdempotencyKey "patch" req.userId k) = (none, st.cache) := by
    simp [getIdempotencyCache, hmiss]
  have hm := mergeAndPersist_mem cfg.policy (allowNullOf cfg) true now1 req.userId
      (req.facts.foldl (patchStepField cfg req) ([], [])).2 st.store
  set VA := req.facts.foldl (patchStepField cfg req) ([], []) with hVA
  set M := seqMerge cfg.policy (allowNullOf cfg) true now1 req.userId VA.2 st.store with hM
  set S := seqStore cfg.policy (allowNullOf cfg) true now1 req.userId VA.2 st.store with hS
  have hp1 : patch cfg now1 st req =
      (.ok ⟨M.profile, M.updated, VA.1 ++ M.rejected⟩,
       ⟨S, setIdempotencyCache now1 st.cache (makeIdempotencyKey "patch" req.userId k)
          (.patchRes ⟨M.profile, M.updated, VA.1 ++ M.rejected⟩)⟩) := by
    rw [patch, hkey]
    simp only [hget1]
    rw [show ({ st with cache := st.cache } : FactSheetState) = st from rfl]
    rw [patchMain]
    simp only [hm]
  rw [hp1]
  have hget2 : getIdempotencyCache now2
      (setIdempotencyCache now1 st.cache (makeIdempotencyKey "patch" req.userId k)
        (.patchRes ⟨M.profile, M.updated, VA.1 ++ M.rejected⟩))
      (makeIdempotencyKey "patch" req.userId k) =
      (some (.patchRes ⟨M.profile, M.updated, VA.1 ++ M.rejected⟩),
       setIdempotencyCache now1 st.cache (makeIdempotencyKey "patch" req.userId k)
        (.patchRes ⟨M.profile, M.updated, VA.1 ++ M.rejected⟩)) := by
    simp only [getIdempotencyCache, aget_setIdempotencyCache]
    rw [if_neg (by omega : ¬ now2 > now1 + IDEMPOTENCY_TTL_MS)]
  rw [patch, hkey]
  simp only [hget2]
  exact ⟨by trivial, by trivial⟩

/-- Witness for C7 at a concrete input: two `patch` calls for `u1` with key
`"k1"`, the second 1000 ms after the first. -/
theorem patch_idempotent_replay_witness :
    (patch exCfg 1000 (patch exCfg 0 emptyState
        { userId := "u1", facts := [("name", some (.vStr "Ada"))],
          idempotencyKey := some "k1" }).2
        { userId := "u1", facts := [("name", some (.vStr "Ada"))],
          idempotencyKey := some "k1" }).1 =
      (patch exCfg 0 emptyState
        { userId := "u1", facts := [("name", some (.vStr "Ada"))],
          idempotencyKey := some "k1" }).1 ∧
    (patch exCfg 1000 (patch exCfg 0 emptyState
        { userId := "u1", facts := [("name", some (.vStr "Ada"))],
          idempotencyKey := some "k1" }).2
        { userId := "u1", facts := [("name", some (.vStr "Ada"))],
          idempotencyKey := some "k1" }).2 =
      (patch exCfg 0 emptyState
        { userId := "u1", facts := [("name", some (.vStr "Ada"))],
          idempotencyKey := some "k1" }).2 :=
  patch_idempotent_replay exCfg emptyState
    { userId := "u1", facts := [("name", some (.vStr "Ada"))],
      idempotencyKey := some "k1" } "k1" 0 1000 rfl rfl (by decide)


theorem truncateValue_strlen (v : Value) (m : Nat) (s : String)
    (h : truncateValue v m = .vStr s) : s.length ≤ m := by
  cases v <;> simp [truncateValue] at h
  case vStr t =>
    split at h
    · cases h
      next hl =>
        show (strTake t m).length ≤ m
        simp only [strTake, String.length]
        simp
    · next hl => cases h; omega

theorem rejectCand_strOK (policy : ConflictPolicy) (st : MergeState) (c : Candidate)
    (hp : profileStrOK policy.maxFieldLength st.profile)
    (hh : ∀ e ∈ st.history, e.action = .set →
      ∀ s, e.value = some (.vStr s) → s.length ≤ policy.maxFieldLength)
    (ts : Int) (r : Reason) :
    profileStrOK policy.maxFieldLength (rejectCand st c ts r).profile ∧
    (∀ e ∈ (rejectCand st c ts r).history, e.action = .set →
      ∀ s, e.value = some (.vStr s) → s.length ≤ policy.maxFieldLength) := by
  refine ⟨hp, ?_⟩
  intro e he hact s hv
  simp only [rejectCand, List.mem_append] at he
  rcases he with h | h
  · exact hh e h hact s hv
  · simp at h
    subst h
    simp at hact


theorem mergeStep_strOK (policy : ConflictPolicy) (anull : String → Bool) (skip : Bool)
    (now : Int) (st : MergeState) (c : Candidate)
    (hp : profileStrOK policy.maxFieldLength st.profile)
    (hh : ∀ e ∈ st.history, e.action = .set →
      ∀ s, e.value = some (.vStr s) → s.length ≤ policy.maxFieldLength) :
    profileStrOK policy.maxFieldLength (mergeStep policy anull skip now st c).profile ∧
    (∀ e ∈ (mergeStep policy anull skip now st c).history, e.action = .set →
      ∀ s, e.value = some (.vStr s) → s.length ≤ policy.maxFieldLength) := by
  simp only [mergeStep]
  split
  · exact rejectCand_strOK policy st c hp hh _ _
  next v hv =>
    split
    · exact rejectCand_strOK policy st c hp hh _ _
    · split
      · exact rejectCand_strOK policy st c hp hh _ _
      · split
        · exact rejectCand_strOK policy st c hp hh _ _
        · split
          · exact rejectCand_strOK policy st c hp hh _ _
          · split
            · exact rejectCand_strOK policy st c hp hh _ _
            · constructor
              · intro f s hf
                by_cases hfc : f = c.field
                · subst hfc
                  rw [aget_aset_self] at hf
                  injection hf with h1
                  exact truncateValue_strlen _ _ _ h1
                · rw [aget_aset_ne _ _ _ _ hfc] at hf
                  exact hp f s hf
              · intro e he hact s hv2
                simp only [List.mem_append] at he
                rcases he with h | h
                · exact hh e h hact s hv2
                · simp at h
                  subst h
                  simp only at hv2
                  injection hv2 with h1
                  exact truncateValue_strlen _ _ _ h1

theorem foldl_mergeStep_strOK (policy : ConflictPolicy) (anull : String → Bool)
    (skip : Bool) (now : Int) :
    ∀ (cs : List Candidate) (st : MergeState),
      profileStrOK policy.maxFieldLength st.profile →
      (∀ e ∈ st.history, e.action = .set →
        ∀ s, e.value = some (.vStr s) → s.length ≤ policy.maxFieldLength) →
      profileStrOK policy.maxFieldLength
        ((cs.foldl (mergeStep policy anull skip now) st).profile) ∧
      (∀ e ∈ (cs.foldl (mergeStep policy anull skip now) st).history, e.action = .set →
        ∀ s, e.value = some (.vStr s) → s.length ≤ policy.maxFieldLength) := by
  intro cs
  induction cs with
  | nil => intro st h1 h2; exact ⟨h1, h2⟩
  | cons c cs ih =>
      intro st h1 h2
      obtain ⟨a, b⟩ := mergeStep_strOK policy anull skip now st c h1 h2
      exact ih _ a b

/-- Claim C9: every candidate the merge engine accepts with `action = set`
(or `delete`) stores `truncateValue` of its value, so a string history value
of an accepted candidate never exceeds `policy.max_field_length`, and if the
incoming profile's string fields respect the bound, so do all string fields
of the merged profile. -/
theorem string_fields_bounded_after_merge (now : Int) (input : MergeInput)
    (h : profileStrOK input.policy.maxFieldLength input.profile) :
    profileStrOK input.policy.maxFieldLength (mergeCandidates now input).profile ∧
    ∀ e ∈ (mergeCandidates now input).history, e.action = .set →
      ∀ s, e.value = some (.vStr s) → s.length ≤ input.policy.maxFieldLength := by
  have hf := foldl_mergeStep_strOK input.policy input.allowNull input.skipRecencyCheck now
    (sortCandidates input.policy now input.candidates)
    ⟨input.profile, input.provenance, [], [], []⟩ h (by simp)
  simpa [mergeCandidates] using hf


/-- Witness for C9 at a concrete input: a single accepted `manual` candidate
merged into an empty profile under the default policy. -/
theorem string_fields_bounded_after_merge_witness :
    profileStrOK DEFAULT_POLICY.maxFieldLength
      (mergeCandidates 0
        ⟨[], [], [⟨"name", some (.vStr "Ada"), 1, false, "manual", none⟩],
         DEFAULT_POLICY, fun _ => false, true⟩).profile ∧
    ∀ e ∈ (mergeCandidates 0
        ⟨[], [], [⟨"name", some (.vStr "Ada"), 1, false, "manual", none⟩],
         DEFAULT_POLICY, fun _ => false, true⟩).history, e.action = .set →
      ∀ s, e.value = some (.vStr s) → s.length ≤ DEFAULT_POLICY.maxFieldLength :=
  string_fields_bounded_after_merge 0
    ⟨[], [], [⟨"name", some (.vStr "Ada"), 1, false, "manual", none⟩],
     DEFAULT_POLICY, fun _ => false, true⟩
    (by intro f s h; simp [aget] at h)


/-- Claim C8: the extras gate treats the whole field atomically, on both
ingestion paths. A candidate value that is neither a map nor null sanitizes
to the invalid marker; null passes through unchanged; a map whose
sanitization drops every key sanitizes to the invalid marker; in the patch
validation loop AND in the observe validation loop (`validateCandidates`) an
invalid extras value rejects the whole field as `extras_invalid` and
contributes no candidate (no partial application of surviving keys), while a
null value reaches the merge batch as a candidate whenever the schema parse
accepts it (the observe path additionally records the sanitized value in
`extracted`). -/
theorem extras_gate_whole_field (cfg : FactSheetConfigL) (req : PatchRequestL)
    (fs : FieldSchema) (hx : aget cfg.shape "extras" = some fs) :
    (∀ v : Value, v.isPlainObj = false → v ≠ .vNull →
      sanitizeExtrasValue cfg.policy (some v) = none) ∧
    (sanitizeExtrasValue cfg.policy (some .vNull) = some .vNull) ∧
    (∀ es, sanitizeTopEntries cfg.policy (resolveExtrasConfig cfg.policy) [] es = [] →
      sanitizeExtrasValue cfg.policy (some (.vObj es)) = none) ∧
    (∀ acc v, sanitizeExtrasValue cfg.policy v = none →
      patchStepField cfg req acc ("extras", v) =
        (acc.1 ++ [⟨"extras", v, .extras_invalid⟩], acc.2)) ∧
    (∀ acc d, fs.safeParse (some .vNull) = some d →
      patchStepField cfg req acc ("extras", some .vNull) =
        (acc.1, acc.2 ++ [⟨"extras", d, req.confidence.getD 1, false,
          req.source.getD "manual", none⟩])) ∧
    (∀ (oreq : ObserveRequestL) acc (c : ExtractorCandidateL),
      c.field = "extras" → sanitizeExtrasValue cfg.policy c.value = none →
      observeStepCand cfg oreq acc c =
        (acc.1 ++ [⟨"extras", c.value, .extras_invalid⟩], acc.2.1, acc.2.2)) ∧
    (∀ (oreq : ObserveRequestL) acc (c : ExtractorCandidateL) d,
      c.field = "extras" → c.value = some .vNull →
      fs.safeParse (some .vNull) = some d →
      observeStepCand cfg oreq acc c =
        (acc.1,
         acc.2.1 ++ [⟨"extras", d,
           c.confidence.getD (oreq.confidence.getD (mkRat 8 10)), c.inferred,
           c.source.getD (if c.inferred then "inferred" else oreq.source.getD "observe"),
           c.timestamp⟩],
         aset acc.2.2 "extras" (some .vNull))) := by
  refine ⟨?_, rfl, ?_, ?_, ?_, ?_, ?_⟩
  · intro v hobj hnull
    cases v <;> simp_all [sanitizeExtrasValue, Value.isPlainObj]
  · intro es hes
    simp [sanitizeExtrasValue, hes]
  · intro acc v hv
    rw [patchStepField]
    simp only [hx]
    simp [hv]
  · intro acc d hd
    rw [patchStepField]
    simp only [hx]
    simp [sanitizeExtrasValue, normalizeOpt, hd]
  · intro oreq acc c hfield hv
    rw [observeStepCand]
    simp only [hfield, hx]
    simp [hv]
  · intro oreq acc c d hfield hval hd
    rw [observeStepCand]
    simp only [hfield, hval, hx]
    simp [sanitizeExtrasValue, normalizeOpt, hd]


/-- Witness for C8 at concrete inputs: a string extras value, a null extras
value, a map whose only key fails the default key pattern (rejected whole on
the patch path), and the same bad map arriving as an observe extractor
candidate (rejected whole on the observe path). -/
theorem extras_gate_whole_field_witness :
    sanitizeExtrasValue exCfg.policy (some (.vStr "x")) = none ∧
    sanitizeExtrasValue exCfg.policy (some .vNull) = some .vNull ∧
    sanitizeExtrasValue exCfg.policy (some (.vObj [("invalid-key@test", .vStr "y")])) = none ∧
    patchStepField exCfg { userId := "u2", facts := [] } ([], [])
      ("extras", some (.vObj [("invalid-key@test", .vStr "y")])) =
      ([⟨"extras", some (.vObj [("invalid-key@test", .vStr "y")]), .extras_invalid⟩], []) ∧
    observeStepCand exCfg { userId := "u2" } ([], [], [])
      ⟨"extras", some (.vObj [("invalid-key@test", .vStr "y")]), none, false, none, none⟩ =
      ([⟨"extras", some (.vObj [("invalid-key@test", .vStr "y")]), .extras_invalid⟩],
       [], []) := by
  have h := extras_gate_whole_field exCfg { userId := "u2", facts := [] } exAnySchema rfl
  refine ⟨h.1 (.vStr "x") rfl (by simp), h.2.1, ?_, ?_, ?_⟩
  · exact h.2.2.1 [("invalid-key@test", .vStr "y")] rfl
  · have h4 := h.2.2.2.1 ([], []) (some (.vObj [("invalid-key@test", .vStr "y")]))
      (h.2.2.1 [("invalid-key@test", .vStr "y")] rfl)
    simpa using h4
  · have h5 := h.2.2.2.2.2.1 { userId := "u2" } ([], [], [])
      ⟨"extras", some (.vObj [("invalid-key@test", .vStr "y")]), none, false, none, none⟩
      rfl (h.2.2.1 [("invalid-key@test", .vStr "y")] rfl)
    simpa using h5


theorem mergeStep_confOK (policy : ConflictPolicy) (anull : String → Bool) (skip : Bool)
    (now : Int) (st : MergeState) (c : Candidate)
    (hp : provConfOK st.provenance) (hc : confOK c.confidence) :
    provConfOK (mergeStep policy anull skip now st c).provenance := by
  simp only [mergeStep]
  split
  · exact hp
  next v hv =>
    split
    · exact hp
    · split
      · exact hp
      · split
        · exact hp
        · split
          · exact hp
          · split
            · exact hp
            · intro f pv hf
              by_cases hfc : f = c.field
              · subst hfc
                rw [aget_aset_self] at hf
                cases hf
                exact hc
              · rw [aget_aset_ne _ _ _ _ hfc] at hf
                exact hp f pv hf

theorem foldl_mergeStep_confOK (policy : ConflictPolicy) (anull : String → Bool)
    (skip : Bool) (now : Int) :
    ∀ (cs : List Candidate) (st : MergeState), provConfOK st.provenance →
      candsConfOK cs →
      provConfOK ((cs.foldl (mergeStep policy anull skip now) st).provenance) := by
  intro cs
  induction cs with
  | nil => intro st h1 _; exact h1
  | cons c cs ih =>
      intro st h1 h2
      exact ih _ (mergeStep_confOK policy anull skip now st c h1 (h2 c (by simp)))
        (fun x hx => h2 x (by simp [hx]))

theorem mergeCandidates_confOK (now : Int) (input : MergeInput)
    (hp : provConfOK input.provenance) (hc : candsConfOK input.candidates) :
    provConfOK (mergeCandidates now input).provenance := by
  have hsorted : candsConfOK (sortCandidates input.policy now input.candidates) := by
    intro c hcm
    exact hc c ((List.perm_insertionSort _ _).mem_iff.mp hcm)
  exact foldl_mergeStep_confOK input.policy input.allowNull input.skipRecencyCheck now
    _ ⟨input.profile, input.provenance, [], [], []⟩ hp hsorted

theorem seqStore_confOK (policy : ConflictPolicy) (anull : String → Bool) (skip : Bool)
    (now : Int) (u : String) (cs : List Candidate) (store : MemoryStore)
    (hst : storeConfOK store) (hc : candsConfOK cs) :
    storeConfOK (seqStore policy anull skip now u cs store) := by
  intro u' e' hget
  by_cases hu : u' = u
  · subst hu
    rw [seqStore] at hget
    simp only at hget
    rw [aget_aset_self] at hget
    cases hget
    apply mergeCandidates_confOK
    · rw [seqExisting, MemoryAdapter.get]
      cases hg : aget store.entries u' with
      | none => intro f pv hf; simp [hg, defaultRecord, aget] at hf
      | some e =>
          intro f pv hf
          simp only [Option.map_some, Option.getD_some] at hf
          exact hst u' e hg f pv hf
    · exact hc
  · rw [seqStore] at hget
    simp only at hget
    rw [aget_aset_ne _ _ _ _ hu] at hget
    exact hst u' e' hget


theorem patchStepField_confOK (cfg : FactSheetConfigL) (req : PatchRequestL)
    (acc : List RejectedField × List Candidate) (fv : String × Option Value)
    (hacc : candsConfOK acc.2) (hreq : ∀ q, req.confidence = some q → confOK q) :
    candsConfOK (patchStepField cfg req acc fv).2 := by
  rw [patchStepField]
  split
  · exact hacc
  next fs hfs =>
    split
    all_goals dsimp only
    all_goals split
    · exact hacc
    · split
      · exact hacc
      · intro c hcm
        rcases List.mem_append.mp hcm with h | h
        · exact hacc c h
        · simp only [List.mem_singleton] at h
          subst h
          show confOK (req.confidence.getD 1)
          cases hq : req.confidence with
          | some q => simpa using hreq q hq
          | none => exact ⟨by norm_num, le_refl 1⟩
    · exact hacc
    · split
      · exact hacc
      · intro c hcm
        rcases List.mem_append.mp hcm with h | h
        · exact hacc c h
        · simp only [List.mem_singleton] at h
          subst h
          show confOK (req.confidence.getD 1)
          cases hq : req.confidence with
          | some q => simpa using hreq q hq
          | none => exact ⟨by norm_num, le_refl 1⟩

theorem patchValidate_confOK (cfg : FactSheetConfigL) (req : PatchRequestL)
    (hreq : ∀ q, req.confidence = some q → confOK q) :
    ∀ (facts : List (String × Option Value)) (acc : List RejectedField × List Candidate),
      candsConfOK acc.2 →
      candsConfOK (facts.foldl (patchStepField cfg req) acc).2 := by
  intro facts
  induction facts with
  | nil => intro acc h; exact h
  | cons fv fvs ih =>
      intro acc h
      exact ih _ (patchStepField_confOK cfg req acc fv h hreq)

theorem observeStepCand_confOK (cfg : FactSheetConfigL) (req : ObserveRequestL)
    (acc : List RejectedField × List Candidate × List (String × Option Value))
    (c : ExtractorCandidateL) (hacc : candsConfOK acc.2.1)
    (hreq : ∀ q, req.confidence = some q → confOK q)
    (hc : ∀ q, c.confidence = some q → confOK q) :
    candsConfOK (observeStepCand cfg req acc c).2.1 := by
  rw [observeStepCand]
  split
  · exact hacc
  next fs hfs =>
    split
    all_goals dsimp only
    all_goals split
    · exact hacc
    · split
      · exact hacc
      · intro x hxm
        rcases List.mem_append.mp hxm with h | h
        · exact hacc x h
        · simp only [List.mem_singleton] at h
          subst h
          show confOK (c.confidence.getD (req.confidence.getD (mkRat 8 10)))
          cases hq : c.confidence with
          | some q => simpa using hc q hq
          | none =>
              cases hr : req.confidence with
              | some q => simpa using hreq q hr
              | none => exact ⟨by norm_num, by norm_num⟩
    · exact hacc
    · split
      · exact hacc
      · intro x hxm
        rcases List.mem_append.mp hxm with h | h
        · exact hacc x h
        · simp only [List.mem_singleton] at h
          subst h
          show confOK (c.confidence.getD (req.confidence.getD (mkRat 8 10)))
          cases hq : c.confidence with
          | some q => simpa using hc q hq
          | none =>
              cases hr : req.confidence with
              | some q => simpa using hreq q hr
              | none => exact ⟨by norm_num, by norm_num⟩

theorem observeValidate_confOK (cfg : FactSheetConfigL) (req : ObserveRequestL)
    (hreq : ∀ q, req.confidence = some q → confOK q) :
    ∀ (cands : List ExtractorCandidateL)
      (acc : List RejectedField × List Candidate × List (String × Option Value)),
      candsConfOK acc.2.1 →
      (∀ c ∈ cands, ∀ q, c.confidence = some q → confOK q) →
      candsConfOK ((cands.foldl (observeStepCand cfg req) acc)).2.1 := by
  intro cands
  induction cands with
  | nil => intro acc h _; exact h
  | cons c cs ih =>
      intro acc h hcs
      exact ih _ (observeStepCand_confOK cfg req acc c h hreq (hcs c (by simp)))
        (fun x hx => hcs x (by simp [hx]))


theorem patchMain_confOK (cfg : FactSheetConfigL) (now : Int) (st : FactSheetState)
    (req : PatchRequestL) (idKey : Option String) (hst : storeConfOK st.store)
    (hreq : ∀ q, req.confidence = some q → confOK q) :
    storeConfOK (patchMain cfg now st req idKey).2.store := by
  rw [patchMain]
  rw [mergeAndPersist_mem]
  exact seqStore_confOK _ _ _ _ _ _ _ hst
    (patchValidate_confOK cfg req hreq req.facts ([], []) (fun c h => absurd h (by simp)))

theorem patch_confOK (cfg : FactSheetConfigL) (now : Int) (st : FactSheetState)
    (req : PatchRequestL) (hst : storeConfOK st.store)
    (hreq : ∀ q, req.confidence = some q → confOK q) :
    storeConfOK (patch cfg now st req).2.store := by
  rw [patch]
  cases hk : req.idempotencyKey with
  | none => exact patchMain_confOK cfg now st req none hst hreq
  | some key =>
      cases hhit : (getIdempotencyCache now st.cache
          (makeIdempotencyKey "patch" req.userId key)).1 with
      | some cached => simp only [hhit]; exact hst
      | none =>
          simp only [hhit]
          exact patchMain_confOK cfg now _ req _ hst hreq

theorem processObserve_confOK (cfg : FactSheetConfigL) (now : Int) (st : FactSheetState)
    (req : ObserveRequestL) (cands : List ExtractorCandidateL) (idKey : Option String)
    (hst : storeConfOK st.store)
    (hreq : ∀ q, req.confidence = some q → confOK q)
    (hcands : ∀ c ∈ cands, ∀ q, c.confidence = some q → confOK q) :
    storeConfOK (processObserve cfg now st req cands idKey).2.store := by
  rw [processObserve]
  rw [mergeAndPersist_mem]
  exact seqStore_confOK _ _ _ _ _ _ _ hst
    (observeValidate_confOK cfg req hreq cands ([], [], [])
      (fun c h => absurd h (by simp)) hcands)

theorem observe_confOK (cfg : FactSheetConfigL) (now : Int) (st : FactSheetState)
    (req : ObserveRequestL) (cands : List ExtractorCandidateL)
    (hst : storeConfOK st.store)
    (hreq : ∀ q, req.confidence = some q → confOK q)
    (hcands : ∀ c ∈ cands, ∀ q, c.confidence = some q → confOK q) :
    storeConfOK (observe cfg now st req cands).2.store := by
  rw [observe]
  cases hk : req.idempotencyKey with
  | none => exact processObserve_confOK cfg now st req cands none hst hreq hcands
  | some key =>
      cases hhit : (getIdempotencyCache now st.cache
          (makeIdempotencyKey "observe" req.userId key)).1 with
      | some cached => simp only [hhit]; exact hst
      | none =>
          simp only [hhit]
          exact processObserve_confOK cfg now _ req cands _ hst hreq hcands

theorem runOps_confOK (cfg : FactSheetConfigL) :
    ∀ (ops : List OpL) (st : FactSheetState), storeConfOK st.store →
      (∀ op ∈ ops, opConfOK op) → storeConfOK (runOps cfg st ops).store := by
  intro ops
  induction ops with
  | nil => intro st h _; exact h
  | cons op ops ih =>
      intro st h hops
      have h1 : storeConfOK (runOp cfg st op).store := by
        cases op with
        | opPatch n r =>
            have hx : ∀ q, r.confidence = some q → confOK q :=
              hops (OpL.opPatch n r) (List.mem_cons_self _ _)
            exact patch_confOK cfg n st r h hx
        | opObserve n r cs =>
            have hx : (∀ q, r.confidence = some q → confOK q) ∧
                (∀ c ∈ cs, ∀ q, c.confidence = some q → confOK q) :=
              hops (OpL.opObserve n r cs) (List.mem_cons_self _ _)
            exact observe_confOK cfg n st r cs h hx.1 hx.2
      exact ih _ h1 (fun x hx => hops x (by simp [hx]))

/-- Claim C4, corrected: the pipeline never clamps confidences — provenance
confidences are exactly the supplied candidate confidences (or preserved
existing ones) — so the `[0, 1]` invariant holds for every record reachable
by observe and patch sequences PROVIDED every confidence supplied by the
caller and the extractor lies in `[0, 1]` (the built-in defaults 1 and 0.8 do). -/
theorem confidence_invariant_bounded_inputs (cfg : FactSheetConfigL) (ops : List OpL)
    (hops : ∀ op ∈ ops, opConfOK op) :
    storeConfOK (runOps cfg emptyState ops).store :=
  runOps_confOK cfg ops emptyState
    (fun u e h => absurd h (by simp [emptyState, aget])) hops

/-- Counterexample to C4 as stated: a patch carrying `confidence = 5` on a
declared string field is accepted (5 is not below `min_confidence`) and the
stored provenance entry records confidence 5, outside `[0, 1]`. -/
theorem confidence_out_of_range_reachable_cex :
    ((aget (runOps exCfg emptyState [exOpConf5]).store.entries "u1").map
      (fun e => (aget e.provenance "name").map (fun pv => pv.confidence))) =
      some (some 5) ∧ ¬ confOK 5 :=
  ⟨rfl, fun h => absurd h.2 (by norm_num)⟩


/-- Witness for the corrected C4 at a concrete input: one patch op with
confidence 1 on a fresh store. -/
theorem confidence_invariant_bounded_inputs_witness :
    storeConfOK (runOps exCfg emptyState
      [.opPatch 0
        { userId := "u1", facts := [("name", some (.vStr "Ada"))],
          confidence := some 1 }]).store :=
  confidence_invariant_bounded_inputs exCfg
    [.opPatch 0
      { userId := "u1", facts := [("name", some (.vStr "Ada"))],
        confidence := some 1 }]
    (by
      intro op h
      simp only [List.mem_singleton] at h
      subst h
      intro q hq
      cases hq
      exact ⟨by norm_num, by norm_num⟩)

end Weavlet
